import Mathlib

/-!
Verification of `src/scripts/data_cleaning.py` (function `clean_earnings_data`).

The script reads a tab-separated file with a header row, truncates the parsed
table to its first 3 columns when more are present, requires columns named
"Period" and "Amount", strips `$`/`,`/surrounding whitespace from Amount,
keeps rows whose stripped Amount is all digits after deleting every `.`,
converts the kept Amount column to float, drops rows with a missing Period,
and writes a two-column comma-separated file.  Reading, the per-character
string operations, the pandas NA-token handling, Python `float()` on the
digit/dot strings this pipeline produces (including its overflow to
infinity), and the `str()` formatting used by `to_csv` are embedded below as
executable Lean functions.  Scope notes for the model: cells are kept as
strings (the pandas dtype inference that turns an all-numeric column into
floats at load time is not modelled; every concrete input used below keeps
its columns non-numeric, e.g. by a `$` in the cell, so its behaviour is
unaffected), and the float formatting model covers the plain positional
decimal notation Python uses below 1e16, which every concrete value used
below stays inside.
-/

namespace DataCleaning

/-- Splits a character list at every occurrence of `sep`; the separators are
dropped and the (possibly empty) pieces between them are returned in order. -/
def splitOnChar (sep : Char) : List Char → List (List Char)
  | [] => [[]]
  | c :: rest =>
    match splitOnChar sep rest with
    | [] => [[]]
    | h :: t => if c = sep then [] :: h :: t else (c :: h) :: t

/-- Tab-splitting of one raw input line, as `read_csv(..., sep='\t')` does. -/
def splitTab (s : String) : List String :=
  (splitOnChar '\t' s.data).map String.mk

/-- Characters removed by Python `str.strip()`. -/
def isPySpace (c : Char) : Bool :=
  c = ' ' || c = '\t' || c = '\n' || c = '\r' || c = '\x0b' || c = '\x0c'

/-- Python `str.strip()`: drop leading and trailing whitespace. -/
def pyStrip (s : String) : String :=
  String.mk (((s.data.dropWhile isPySpace).reverse.dropWhile isPySpace).reverse)

/-- Line 48, `str.replace('[\$,]', '', regex=True)`: delete every `$` and `,`. -/
def removeCurrency (s : String) : String :=
  String.mk (s.data.filter (fun c => !(c = '$' || c = ',')))

/-- Line 48: the full Amount sanitisation, currency removal then strip. -/
def sanitize (s : String) : String := pyStrip (removeCurrency s)

/-- The string content of a cell after `.astype(str)`: pandas renders a
missing value (NaN) as the string "nan". -/
def astypeStr : Option String → String
  | none => "nan"
  | some s => s

/-- Line 57, `str.replace('.', '', regex=False)`: delete every dot. -/
def removeDots (s : String) : String :=
  String.mk (s.data.filter (fun c => c != '.'))

/-- Line 57: the validity check on a sanitised Amount — after deleting every
dot the remainder must be a non-empty string of digits (`str.isdigit`). -/
def validAmount (s : String) : Bool :=
  !(removeDots s).data.isEmpty && (removeDots s).data.all Char.isDigit

/-- Numeric value of a digit string read in base 10. -/
def digitsVal (l : List Char) : Nat :=
  l.foldl (fun a c => a * 10 + (c.toNat - 48)) 0

/-- Characters before the first dot. -/
def beforeDot (l : List Char) : List Char := l.takeWhile (fun c => c != '.')

/-- Characters after the first dot (empty when there is no dot). -/
def afterDot (l : List Char) : List Char := (l.dropWhile (fun c => c != '.')).drop 1

/-- Drops trailing `'0'` characters. -/
def dropTrailZeros (l : List Char) : List Char :=
  (l.reverse.dropWhile (fun c => c == '0')).reverse

/-- Drops leading `'0'` characters, keeping a single `'0'` if nothing is left. -/
def stripLeadZeros (l : List Char) : List Char :=
  match l.dropWhile (fun c => c == '0') with
  | [] => ['0']
  | r => r

/-- Number of `.` characters in a string. -/
def dotCount (s : String) : Nat := (s.data.filter (fun c => c == '.')).length

/-- The exact decimal value denoted by a digit/dot character string, kept as
an integer numerator together with a power-of-ten scale.  The fractional
part is canonicalised (trailing zeros dropped) so that equal decimal values
get equal representations. -/
structure DecVal where
  num : Nat
  scale : Nat
deriving DecidableEq, Repr

/-- Reads the canonical decimal value of a digit/dot character string. -/
def decValOf (l : List Char) : DecVal :=
  ⟨digitsVal (beforeDot l ++ dropTrailZeros (afterDot l)), (dropTrailZeros (afterDot l)).length⟩

/-- The rational number a `DecVal` denotes. -/
def DecVal.toRat (v : DecVal) : ℚ := (v.num : ℚ) / (10 : ℚ) ^ v.scale

/-- Smallest magnitude at which the model declares a decimal out of
binary64 range: every value at or above `2 ^ 1024` (the literal below)
certainly converts to `inf`; every value the theorems below call finite is
far below `2 ^ 1023`. -/
def overflowBound : Nat := 179769313486231590772930519078902473361797697894230657273430081157732675805500963132708477322407536021120113879871393357658789768814416622492847430639474124377767893424865485276302219601246094119453082952085005768838150682342462881473913110540827237163350510684586298239947245938479716304835356329624224137216

/-- Whether a decimal value overflows the binary64 range. -/
def DecVal.overflows (v : DecVal) : Bool :=
  decide (overflowBound * 10 ^ v.scale ≤ v.num)

/-- Result of a successful Python `float()` conversion: a finite decimal
value or positive infinity. -/
inductive PyVal where
  | fin (v : DecVal)
  | inf
deriving DecidableEq, Repr

/-- Finiteness of a converted value. -/
def PyVal.isFinite : PyVal → Bool
  | .fin _ => true
  | .inf => false

/-- Non-negativity of a converted value (infinity counts as non-negative). -/
def PyVal.nonneg : PyVal → Prop
  | .fin v => 0 ≤ v.toRat
  | .inf => True

/-- Models Python `float(s)` (line 72, `astype(float)`) on the strings this
pipeline can feed it: a string of decimal digits and dots converts exactly
when it has at least one digit and at most one dot, overflowing to infinity
beyond binary64 range, and the string "inf" converts to infinity; everything
else raises `ValueError` (`none`). -/
def pyFloat (s : String) : Option PyVal :=
  if s = "inf" then some PyVal.inf
  else if s.data.all (fun c => c.isDigit || c == '.') &&
          s.data.any (fun c => c.isDigit) &&
          decide (dotCount s ≤ 1) then
    some (if (decValOf s.data).overflows then PyVal.inf else PyVal.fin (decValOf s.data))
  else none

/-- Models the text `to_csv` emits for the float parsed from the validated
digit/dot string `s`: Python's `str()` of the float, i.e. leading zeros of
the integer part and trailing zeros of the fractional part disappear, a
value with no fractional part gains ".0", and an overflowed value prints as
"inf". -/
def reprFloat (s : String) : String :=
  if pyFloat s = some PyVal.inf then "inf"
  else if (dropTrailZeros (afterDot s.data)).isEmpty then
    String.mk (stripLeadZeros (beforeDot s.data)) ++ ".0"
  else
    String.mk (stripLeadZeros (beforeDot s.data)) ++ "." ++
      String.mk (dropTrailZeros (afterDot s.data))

/-- The default pandas NA tokens: a cell holding one of these parses as a
missing value. -/
def naTokens : List String :=
  ["", "#N/A", "#N/A N/A", "#NA", "-1.#IND", "-1.#QNB", "-NaN", "-nan",
   "1.#IND", "1.#QNB", "<NA>", "N/A", "NA", "NULL", "NaN", "None",
   "n/a", "nan", "null"]

/-- Parses one raw cell: NA tokens become missing values. -/
def parseCell (s : String) : Option String :=
  if naTokens.contains s then none else some s

/-- The parsed input table: header names plus rows of cells, a cell being
`none` when pandas read it as missing. -/
structure RawTable where
  header : List String
  rows : List (List (Option String))
deriving DecidableEq, Repr

/-- One record of the cleaned output: the Period string and the sanitised,
validated Amount string (the float column holds `pyFloat amount`). -/
structure CleanRec where
  period : String
  amount : String
deriving DecidableEq, Repr

/-- The failure conditions of a run, in the order the source can hit them:
missing input file, empty input, missing required columns, and a failed
float conversion (caught by the generic handler). -/
inductive Diag where
  | notFound
  | emptyData
  | schemaErr
  | parseFail
deriving DecidableEq, Repr

instance {ε α : Type} [DecidableEq ε] [DecidableEq α] : DecidableEq (Except ε α) := fun a b =>
  match a, b with
  | Except.ok x, Except.ok y =>
    if h : x = y then isTrue (by rw [h]) else isFalse (fun hc => h (Except.ok.inj hc))
  | Except.error x, Except.error y =>
    if h : x = y then isTrue (by rw [h]) else isFalse (fun hc => h (Except.error.inj hc))
  | Except.ok _, Except.error _ => isFalse (fun hc => Except.noConfusion hc)
  | Except.error _, Except.ok _ => isFalse (fun hc => Except.noConfusion hc)

/-- Lines 33-34: keep only the first 3 columns. -/
def truncTable (t : RawTable) : RawTable :=
  ⟨t.header.take 3, t.rows.map (fun r => r.take 3)⟩

/-- Position of a named column in the header. -/
def colIdx (hdr : List String) (name : String) : Nat :=
  hdr.findIdx (fun c => c == name)

/-- The cell of row `r` in the named column (missing when out of range,
matching the NaN padding of short rows). -/
def cellAt (hdr : List String) (name : String) (r : List (Option String)) : Option String :=
  r.getD (colIdx hdr name) none

/-- Line 44, `df_selected`: every row projected to its (Period, Amount)
cells, Amount already stringified as `astype(str)` does on line 48. -/
def selectedOf (t : RawTable) : List (Option String × String) :=
  t.rows.map (fun r =>
    (cellAt t.header "Period" r, astypeStr (cellAt t.header "Amount" r)))

/-- Line 48: the Amount component of every selected row sanitised. -/
def sanitizedOf (t : RawTable) : List (Option String × String) :=
  (selectedOf t).map (fun pr => (pr.1, sanitize pr.2))

/-- Lines 55-66: only the rows passing the digit check survive. -/
def validOf (t : RawTable) : List (Option String × String) :=
  (sanitizedOf t).filter (fun pr => validAmount pr.2)

/-- Line 77, `dropna`: rows with a missing Period are dropped. -/
def keptOf (t : RawTable) : List (Option String × String) :=
  (validOf t).filter (fun pr => pr.1.isSome)

/-- Lines 37-85 of the source, on the table left after column truncation:
check the schema, then run selection, sanitisation and the digit filter;
converting the whole Amount column to float (line 72) aborts the run when
any surviving entry fails to parse; otherwise rows with a missing Period
are dropped and the records are produced. -/
def cleanTableAux (t : RawTable) : Except Diag (List CleanRec) :=
  if t.header.contains "Period" && t.header.contains "Amount" then
    if (validOf t).all (fun pr => (pyFloat pr.2).isSome) then
      Except.ok ((keptOf t).map (fun pr => ⟨pr.1.getD "", pr.2⟩))
    else Except.error Diag.parseFail
  else Except.error Diag.schemaErr

/-- Lines 28-85 of the source, from the parsed table to the record list:
truncate to the first 3 columns when more are present, then run the rest of
the pipeline. -/
def cleanTable (t0 : RawTable) : Except Diag (List CleanRec) :=
  cleanTableAux (if 3 < t0.header.length then truncTable t0 else t0)

/-- Line 19, `pd.read_csv(input_csv, sep='\t', header=0)`: `none` models a
missing input file; a file with no non-blank lines raises `EmptyDataError`;
otherwise the first non-blank line is the header and the rest are rows. -/
def loadTable (input : Option (List String)) : Except Diag RawTable :=
  match input with
  | none => Except.error Diag.notFound
  | some lines =>
    match lines.filter (fun l => l != "") with
    | [] => Except.error Diag.emptyData
    | h :: rest =>
      Except.ok ⟨splitTab h, rest.map (fun r => (splitTab r).map parseCell)⟩

/-- Load followed by the in-memory cleaning. -/
def cleanRecords (input : Option (List String)) : Except Diag (List CleanRec) :=
  match loadTable input with
  | Except.ok t => cleanTable t
  | Except.error d => Except.error d

/-- Whether `to_csv` must quote a field. -/
def needsQuote (s : String) : Bool :=
  s.data.any (fun c => c == ',' || c == '"' || c == '\n' || c == '\r')

/-- Doubles every `"` character, as CSV quoting does inside a quoted field. -/
def escapeQuotes : List Char → List Char
  | [] => []
  | c :: rest =>
    if c = '"' then '"' :: '"' :: escapeQuotes rest else c :: escapeQuotes rest

/-- One CSV field as `to_csv` writes it (minimal quoting). -/
def csvField (s : String) : String :=
  if needsQuote s then String.mk ('"' :: (escapeQuotes s.data ++ ['"'])) else s

/-- One record line of the output file. -/
def recLine (r : CleanRec) : String :=
  csvField r.period ++ "," ++ reprFloat r.amount

/-- Line 85, `to_csv(output_csv, index=False)`: the header line followed by
one line per record. -/
def serialize (recs : List CleanRec) : List String :=
  "Period,Amount" :: recs.map recLine

/-- Observable outcome of one call of `clean_earnings_data`: the file content
written at `output_csv` (if any) and the failure diagnostic printed to the
console (if any). -/
structure RunResult where
  output : Option (List String)
  diag : Option Diag
deriving DecidableEq, Repr

/-- The whole function `clean_earnings_data` (lines 4-95): on success the
output file is written; every failure is caught, printed as a diagnostic,
and swallowed, and nothing is written. -/
def clean_earnings_data (input : Option (List String)) : RunResult :=
  match cleanRecords input with
  | Except.ok recs => ⟨some (serialize recs), none⟩
  | Except.error d => ⟨none, some d⟩

/-- The state of the output path after one run: a successful run overwrites
whatever was there; a failed run leaves the prior state in place. -/
def runWithOutputState (input : Option (List String)) (prior : Option (List String)) :
    Option (List String) :=
  match (clean_earnings_data input).output with
  | some o => some o
  | none => prior

/-! Spec-side definitions, written from the claims' own words, to be compared
with the behaviour of the code-side functions above. -/

/-- The spec's acceptance regex `^\d+(\.\d+)?$`: one or more digits,
optionally followed by a dot and one or more digits. -/
def specNumeric (s : String) : Bool :=
  if dotCount s = 0 then
    !s.data.isEmpty && s.data.all Char.isDigit
  else if dotCount s = 1 then
    !(beforeDot s.data).isEmpty && !(afterDot s.data).isEmpty &&
      (beforeDot s.data).all Char.isDigit && (afterDot s.data).all Char.isDigit
  else false

/-- Naive comma-splitting of a line, as the round-trip claim reads the
output back. -/
def splitCommas (l : List Char) : List (List Char) := splitOnChar ',' l

/-- Naive re-reading of the output file: skip the header line, split every
line on commas. -/
def naiveRead (lines : List String) : List (List String) :=
  (lines.drop 1).map (fun line => (splitCommas line.data).map String.mk)

/-- Whether a string is free of the characters that force CSV quoting; the
round-trip property holds exactly for outputs whose Period fields are. -/
def noSpecial (s : String) : Bool :=
  s.data.all (fun c => !(c == ',' || c == '"' || c == '\n' || c == '\r'))

/-- The table actually processed: the input truncated to 3 columns when
wider. -/
def effTable (t : RawTable) : RawTable :=
  if 3 < t.header.length then truncTable t else t

/-- The sanitised Amount string of one row of `t`. -/
def amountOf (t : RawTable) (r : List (Option String)) : String :=
  sanitize (astypeStr (cellAt t.header "Amount" r))

/-- The record a single row contributes to the output, read off the spec's
row-wise description: the row survives exactly when its sanitised Amount
passes the digit check and its Period is present. -/
def expectedRec (t : RawTable) (r : List (Option String)) : Option CleanRec :=
  match cellAt t.header "Period" r with
  | some p => if validAmount (amountOf t r) then some ⟨p, amountOf t r⟩ else none
  | none => none

/-! Helper lemmas on list and digit-string operations. -/

lemma splitOnChar_ne_nil (sep : Char) (l : List Char) : splitOnChar sep l ≠ [] := by
  cases l with
  | nil => simp [splitOnChar]
  | cons c rest =>
    simp only [splitOnChar]
    cases splitOnChar sep rest with
    | nil => simp
    | cons x t =>
      dsimp only
      split <;> simp

lemma splitOnChar_single (sep : Char) (l : List Char)
    (h : l.all (fun c => c != sep) = true) : splitOnChar sep l = [l] := by
  induction l with
  | nil => rfl
  | cons c rest ih =>
    simp only [List.all_cons, Bool.and_eq_true, bne_iff_ne] at h
    simp only [splitOnChar, ih h.2, if_neg h.1]

lemma splitOnChar_append (sep : Char) (a b : List Char)
    (h : a.all (fun c => c != sep) = true) :
    splitOnChar sep (a ++ sep :: b) = a :: splitOnChar sep b := by
  induction a with
  | nil =>
    simp only [List.nil_append, splitOnChar]
    cases hb : splitOnChar sep b with
    | nil => exact absurd hb (splitOnChar_ne_nil sep b)
    | cons h t => simp
  | cons c a ih =>
    simp only [List.all_cons, Bool.and_eq_true, bne_iff_ne] at h
    show splitOnChar sep (c :: (a ++ sep :: b)) = (c :: a) :: splitOnChar sep b
    simp only [splitOnChar]
    rw [ih h.2]
    simp [if_neg h.1]

lemma mem_takeWhile {p : Char → Bool} {a : Char} :
    ∀ {l : List Char}, a ∈ l.takeWhile p → a ∈ l ∧ p a = true := by
  intro l
  induction l with
  | nil => simp [List.takeWhile]
  | cons c rest ih =>
    simp only [List.takeWhile]
    cases hc : p c with
    | false => simp
    | true =>
      intro hm
      rcases List.mem_cons.mp hm with rfl | hm
      · exact ⟨List.mem_cons_self _ _, hc⟩
      · exact ⟨List.mem_cons_of_mem _ (ih hm).1, (ih hm).2⟩

lemma mem_dropWhile {p : Char → Bool} {a : Char} :
    ∀ {l : List Char}, a ∈ l.dropWhile p → a ∈ l := by
  intro l
  induction l with
  | nil => simp [List.dropWhile]
  | cons c rest ih =>
    simp only [List.dropWhile]
    cases hc : p c with
    | false => simp
    | true => intro hm; exact List.mem_cons_of_mem _ (ih hm)

lemma dropWhile_dropWhile (p : Char → Bool) (l : List Char) :
    (l.dropWhile p).dropWhile p = l.dropWhile p := by
  induction l with
  | nil => rfl
  | cons c rest ih =>
    simp only [List.dropWhile]
    cases hc : p c with
    | false => simp [List.dropWhile, hc]
    | true => exact ih

lemma takeWhile_append_all (p : Char → Bool) (a b : List Char)
    (h : a.all p = true) : (a ++ b).takeWhile p = a ++ b.takeWhile p := by
  induction a with
  | nil => rfl
  | cons c rest ih =>
    simp only [List.all_cons, Bool.and_eq_true] at h
    simp [List.takeWhile, h.1, ih h.2]

lemma dropWhile_append_all (p : Char → Bool) (a b : List Char)
    (h : a.all p = true) : (a ++ b).dropWhile p = b.dropWhile p := by
  induction a with
  | nil => rfl
  | cons c rest ih =>
    simp only [List.all_cons, Bool.and_eq_true] at h
    simp [List.dropWhile, h.1, ih h.2]

lemma mem_dropTrailZeros {a : Char} {l : List Char} (h : a ∈ dropTrailZeros l) :
    a ∈ l := by
  unfold dropTrailZeros at h
  rw [List.mem_reverse] at h
  exact List.mem_reverse.mp (mem_dropWhile h)

lemma dropTrailZeros_idem (l : List Char) :
    dropTrailZeros (dropTrailZeros l) = dropTrailZeros l := by
  unfold dropTrailZeros
  rw [List.reverse_reverse, dropWhile_dropWhile]

lemma digitsVal_cons_zero (l : List Char) : digitsVal ('0' :: l) = digitsVal l := rfl

lemma digitsVal_dropZeros (l : List Char) :
    digitsVal (l.dropWhile (fun c => c == '0')) = digitsVal l := by
  induction l with
  | nil => rfl
  | cons c rest ih =>
    simp only [List.dropWhile]
    cases hc : (c == '0') with
    | false => rfl
    | true =>
      rw [ih, show c = '0' from beq_iff_eq.mp hc, digitsVal_cons_zero]

lemma digitsVal_foldl (l : List Char) :
    ∀ i : Nat, l.foldl (fun a c => a * 10 + (c.toNat - 48)) i
      = i * 10 ^ l.length + digitsVal l := by
  induction l with
  | nil => intro i; simp [digitsVal]
  | cons c rest ih =>
    intro i
    show rest.foldl _ (i * 10 + (c.toNat - 48)) = _
    rw [ih]
    have hd : digitsVal (c :: rest) = (c.toNat - 48) * 10 ^ rest.length + digitsVal rest := by
      show rest.foldl _ (0 * 10 + (c.toNat - 48)) = _
      rw [ih]
      ring_nf
    rw [hd, List.length_cons]
    ring

lemma digitsVal_append (a b : List Char) :
    digitsVal (a ++ b) = digitsVal a * 10 ^ b.length + digitsVal b := by
  unfold digitsVal
  rw [List.foldl_append]
  exact digitsVal_foldl b _

lemma digitsVal_stripLeadZeros (l : List Char) :
    digitsVal (stripLeadZeros l) = digitsVal l := by
  unfold stripLeadZeros
  cases h : l.dropWhile (fun c => c == '0') with
  | nil =>
    have := digitsVal_dropZeros l
    rw [h] at this
    simp [digitsVal] at this ⊢
    omega
  | cons c rest =>
    have := digitsVal_dropZeros l
    rw [h] at this
    exact this

/-! Facts about the validity check and the float conversion. -/

lemma removeDots_data (s : String) :
    (removeDots s).data = s.data.filter (fun c => c != '.') := rfl

lemma validAmount_all {s : String} (h : validAmount s = true) :
    s.data.all (fun c => c.isDigit || c == '.') = true := by
  unfold validAmount at h
  rw [Bool.and_eq_true, List.all_eq_true] at h
  rw [List.all_eq_true]
  intro c hc
  rcases Bool.eq_false_or_eq_true (c == '.') with hdot | hdot
  · simp [hdot]
  · have hm : c ∈ (removeDots s).data := by
      rw [removeDots_data, List.mem_filter]
      exact ⟨hc, by simp [bne, hdot]⟩
    simp [h.2 c hm]

lemma validAmount_any {s : String} (h : validAmount s = true) :
    s.data.any (fun c => c.isDigit) = true := by
  unfold validAmount at h
  rw [Bool.and_eq_true, List.all_eq_true] at h
  obtain ⟨hne, hall⟩ := h
  cases hf : (removeDots s).data with
  | nil => rw [hf] at hne; simp at hne
  | cons c rest =>
    have hcmem : c ∈ (removeDots s).data := by rw [hf]; exact List.mem_cons_self _ _
    have hdig := hall c hcmem
    rw [removeDots_data, List.mem_filter] at hcmem
    rw [List.any_eq_true]
    exact ⟨c, hcmem.1, hdig⟩

lemma validAmount_ne_inf {s : String} (h : validAmount s = true) : s ≠ "inf" := by
  intro hs
  rw [hs] at h
  exact absurd h (by decide)

lemma ne_inf_of_digit_dot {s : String}
    (h : s.data.all (fun c => c.isDigit || c == '.') = true) : s ≠ "inf" := by
  intro hs
  rw [hs] at h
  exact absurd h (by decide)

lemma pyFloat_isSome_of_valid {s : String} (h : validAmount s = true)
    (hd : dotCount s ≤ 1) : (pyFloat s).isSome = true := by
  unfold pyFloat
  split
  · rfl
  · rw [if_pos]
    · rfl
    · simp [validAmount_all h, validAmount_any h, hd]

lemma dotCount_le_of_pyFloat {s : String} (h : validAmount s = true)
    (h2 : (pyFloat s).isSome = true) : dotCount s ≤ 1 := by
  unfold pyFloat at h2
  rw [if_neg (validAmount_ne_inf h)] at h2
  by_cases hg : (s.data.all (fun c => c.isDigit || c == '.') &&
      (s.data.any (fun c => c.isDigit) && decide (dotCount s ≤ 1))) = true
  · rw [Bool.and_eq_true, Bool.and_eq_true] at hg
    exact of_decide_eq_true hg.2.2
  · rw [if_neg] at h2
    · simp at h2
    · intro hc
      apply hg
      rw [Bool.and_eq_true, Bool.and_eq_true] at hc ⊢
      exact ⟨hc.1.1, hc.1.2, hc.2⟩

lemma digit_ne_dot {c : Char} (h : c.isDigit = true) : (c != '.') = true := by
  rcases Bool.eq_false_or_eq_true (c == '.') with hd | hd
  · rw [show c = '.' from beq_iff_eq.mp hd] at h
    exact absurd h (by decide)
  · simp [bne, hd]

lemma beforeDot_digits {s : String}
    (hall : s.data.all (fun c => c.isDigit || c == '.') = true) :
    (beforeDot s.data).all Char.isDigit = true := by
  rw [List.all_eq_true] at hall ⊢
  intro c hc
  obtain ⟨hmem, hne⟩ := mem_takeWhile hc
  have := hall c hmem
  rw [Bool.or_eq_true] at this
  rcases this with h | h
  · exact h
  · rw [bne_iff_ne] at hne
    exact absurd (beq_iff_eq.mp h) hne

lemma dropWhile_head_false {p : Char → Bool} :
    ∀ {l : List Char} {c : Char} {t : List Char},
      l.dropWhile p = c :: t → p c = false := by
  intro l
  induction l with
  | nil => intro c t h; simp [List.dropWhile] at h
  | cons a rest ih =>
    intro c t h
    rw [List.dropWhile_cons] at h
    split at h
    · exact ih h
    · cases h
      rename_i hp
      exact Bool.eq_false_iff.mpr hp

lemma afterDot_no_dot {s : String} (hd : dotCount s ≤ 1) :
    (afterDot s.data).all (fun c => c != '.') = true := by
  unfold dotCount at hd
  have hsplit := List.takeWhile_append_dropWhile
    (p := fun c => c != '.') (l := s.data)
  cases hrest : s.data.dropWhile (fun c => c != '.') with
  | nil => unfold afterDot; rw [hrest]; rfl
  | cons c t =>
    have hc : c = '.' := by
      have := dropWhile_head_false hrest
      rw [bne_eq_false_iff_eq] at this
      exact this
    have hfilter : s.data.filter (fun c => c == '.')
        = (s.data.takeWhile (fun c => c != '.')).filter (fun c => c == '.')
          ++ (c :: t).filter (fun c => c == '.') := by
      rw [← List.filter_append, ← hrest, hsplit]
    have htw : (s.data.takeWhile (fun c => c != '.')).filter (fun c => c == '.') = [] := by
      rw [List.filter_eq_nil_iff]
      intro a ha
      have := (mem_takeWhile ha).2
      simp only [bne_iff_ne, ne_eq] at this
      simp [this]
    rw [hfilter, htw, List.nil_append] at hd
    rw [List.filter_cons, if_pos (by rw [hc]; rfl)] at hd
    rw [List.length_cons] at hd
    have hzero : (t.filter (fun c => c == '.')).length = 0 := by omega
    rw [List.length_eq_zero] at hzero
    have hnot : ∀ a ∈ t, ¬((a == '.') = true) := List.filter_eq_nil_iff.mp hzero
    unfold afterDot
    rw [hrest, List.drop_one, List.tail_cons, List.all_eq_true]
    intro a ha
    rw [bne_iff_ne]
    intro had
    exact hnot a ha (by rw [had]; rfl)

lemma afterDot_digits {s : String}
    (hall : s.data.all (fun c => c.isDigit || c == '.') = true)
    (hd : dotCount s ≤ 1) :
    (afterDot s.data).all Char.isDigit = true := by
  have hnd := afterDot_no_dot hd
  rw [List.all_eq_true] at hall hnd ⊢
  intro c hc
  have hmem : c ∈ s.data := by
    unfold afterDot at hc
    exact mem_dropWhile (List.drop_subset 1 _ hc)
  have := hall c hmem
  rw [Bool.or_eq_true] at this
  rcases this with h | h
  · exact h
  · have := hnd c hc
    rw [bne_iff_ne] at this
    exact absurd (beq_iff_eq.mp h) this

lemma stripLeadZeros_ne_nil (l : List Char) : stripLeadZeros l ≠ [] := by
  unfold stripLeadZeros
  cases l.dropWhile (fun c => c == '0') <;> simp

lemma stripLeadZeros_digits {l : List Char} (h : l.all Char.isDigit = true) :
    (stripLeadZeros l).all Char.isDigit = true := by
  unfold stripLeadZeros
  cases hf : l.dropWhile (fun c => c == '0') with
  | nil => decide
  | cons c t =>
    rw [List.all_eq_true] at h ⊢
    intro a ha
    have ha2 : a ∈ l.dropWhile (fun c => c == '0') := by rw [hf]; exact ha
    exact h a (mem_dropWhile ha2)

lemma dropTrailZeros_digits {l : List Char} (h : l.all Char.isDigit = true) :
    (dropTrailZeros l).all Char.isDigit = true := by
  rw [List.all_eq_true] at h ⊢
  intro a ha
  exact h a (mem_dropTrailZeros ha)

/-! Shape of the formatted float and the parse/format round trip. -/

lemma all_weaken {p q : Char → Bool} {l : List Char} (h : l.all p = true)
    (imp : ∀ c, p c = true → q c = true) : l.all q = true := by
  rw [List.all_eq_true] at h ⊢
  exact fun c hc => imp c (h c hc)

lemma filter_dot_nil {l : List Char} (h : l.all Char.isDigit = true) :
    l.filter (fun c => c == '.') = [] := by
  rw [List.filter_eq_nil_iff]
  intro c hc
  have := digit_ne_dot (List.all_eq_true.mp h c hc)
  rw [bne_iff_ne] at this
  simp [this]

lemma reprFloat_data {s : String} (hni : pyFloat s ≠ some PyVal.inf) :
    (reprFloat s).data =
      stripLeadZeros (beforeDot s.data) ++
        ('.' :: (if (dropTrailZeros (afterDot s.data)).isEmpty then ['0']
                 else dropTrailZeros (afterDot s.data))) := by
  unfold reprFloat
  rw [if_neg hni]
  split
  · rw [String.data_append]
  · rw [String.data_append, String.data_append, List.append_assoc]
    rfl

lemma reprFloat_ip_digits {s : String} (h : validAmount s = true) :
    (stripLeadZeros (beforeDot s.data)).all Char.isDigit = true :=
  stripLeadZeros_digits (beforeDot_digits (validAmount_all h))

lemma reprFloat_tail_digits {s : String} (h : validAmount s = true)
    (hd : dotCount s ≤ 1) :
    (if (dropTrailZeros (afterDot s.data)).isEmpty then ['0']
     else dropTrailZeros (afterDot s.data)).all Char.isDigit = true := by
  split
  · decide
  · exact dropTrailZeros_digits (afterDot_digits (validAmount_all h) hd)

lemma reprFloat_all_digit_dot {s : String} (h : validAmount s = true)
    (hd : dotCount s ≤ 1) (hni : pyFloat s ≠ some PyVal.inf) :
    (reprFloat s).data.all (fun c => c.isDigit || c == '.') = true := by
  rw [reprFloat_data hni, List.all_append, List.all_cons]
  have himp : ∀ c : Char, c.isDigit = true → (c.isDigit || c == '.') = true := by
    intro c hc; simp [hc]
  rw [Bool.and_eq_true]
  refine ⟨all_weaken (reprFloat_ip_digits h) himp, ?_⟩
  rw [Bool.and_eq_true]
  exact ⟨by simp, all_weaken (reprFloat_tail_digits h hd) himp⟩

lemma reprFloat_any_digit {s : String} (h : validAmount s = true)
    (hd : dotCount s ≤ 1) (hni : pyFloat s ≠ some PyVal.inf) :
    (reprFloat s).data.any (fun c => c.isDigit) = true := by
  rw [reprFloat_data hni, List.any_append, Bool.or_eq_true]
  left
  cases hip : stripLeadZeros (beforeDot s.data) with
  | nil => exact absurd hip (stripLeadZeros_ne_nil _)
  | cons c t =>
    have hdig : c.isDigit = true := by
      have := reprFloat_ip_digits h
      rw [hip, List.all_cons, Bool.and_eq_true] at this
      exact this.1
    simp [hdig]

lemma reprFloat_dotCount {s : String} (h : validAmount s = true)
    (hd : dotCount s ≤ 1) (hni : pyFloat s ≠ some PyVal.inf) :
    dotCount (reprFloat s) ≤ 1 := by
  unfold dotCount
  rw [reprFloat_data hni, List.filter_append,
    filter_dot_nil (reprFloat_ip_digits h), List.filter_cons,
    filter_dot_nil (reprFloat_tail_digits h hd)]
  simp

lemma stripLeadZeros_no_dot {s : String} (h : validAmount s = true) :
    (stripLeadZeros (beforeDot s.data)).all (fun c => c != '.') = true :=
  all_weaken (reprFloat_ip_digits h) (fun _ hc => digit_ne_dot hc)

lemma beforeDot_append_all (a b : List Char)
    (h : a.all (fun c => c != '.') = true) : beforeDot (a ++ '.' :: b) = a := by
  unfold beforeDot
  rw [takeWhile_append_all _ _ _ h, List.takeWhile_cons]
  simp

lemma afterDot_append_all (a b : List Char)
    (h : a.all (fun c => c != '.') = true) : afterDot (a ++ '.' :: b) = b := by
  unfold afterDot
  rw [dropWhile_append_all _ _ _ h, List.dropWhile_cons]
  simp

lemma decValOf_reprFloat {s : String} (h : validAmount s = true)
    (hd : dotCount s ≤ 1) (hni : pyFloat s ≠ some PyVal.inf) :
    decValOf (reprFloat s).data = decValOf s.data := by
  have hb : beforeDot (reprFloat s).data = stripLeadZeros (beforeDot s.data) := by
    rw [reprFloat_data hni]
    exact beforeDot_append_all _ _ (stripLeadZeros_no_dot h)
  have ha : afterDot (reprFloat s).data =
      (if (dropTrailZeros (afterDot s.data)).isEmpty then ['0']
       else dropTrailZeros (afterDot s.data)) := by
    rw [reprFloat_data hni]
    exact afterDot_append_all _ _ (stripLeadZeros_no_dot h)
  unfold decValOf
  rw [hb, ha]
  by_cases hfp : (dropTrailZeros (afterDot s.data)).isEmpty = true
  · rw [if_pos hfp]
    rw [List.isEmpty_iff] at hfp
    rw [hfp]
    have h0 : dropTrailZeros ['0'] = [] := by decide
    rw [h0]
    simp only [List.append_nil, List.length_nil]
    rw [digitsVal_stripLeadZeros]
  · rw [if_neg hfp]
    rw [dropTrailZeros_idem]
    congr 1
    rw [digitsVal_append, digitsVal_append, digitsVal_stripLeadZeros]

lemma pyFloat_eq_of_guard {s : String}
    (hall : s.data.all (fun c => c.isDigit || c == '.') = true)
    (hany : s.data.any (fun c => c.isDigit) = true)
    (hdc : dotCount s ≤ 1) (hne : s ≠ "inf") :
    pyFloat s = some (if (decValOf s.data).overflows then PyVal.inf
                      else PyVal.fin (decValOf s.data)) := by
  unfold pyFloat
  rw [if_neg hne, if_pos (by simp [hall, hany, hdc])]

lemma pyFloat_reprFloat {s : String} (h : validAmount s = true)
    (hd : dotCount s ≤ 1) : pyFloat (reprFloat s) = pyFloat s := by
  by_cases hni : pyFloat s = some PyVal.inf
  · have hr : reprFloat s = "inf" := by unfold reprFloat; rw [if_pos hni]
    rw [hr, hni]
    rfl
  · have hall := reprFloat_all_digit_dot h hd hni
    rw [pyFloat_eq_of_guard hall (reprFloat_any_digit h hd hni)
        (reprFloat_dotCount h hd hni) (ne_inf_of_digit_dot hall),
      pyFloat_eq_of_guard (validAmount_all h) (validAmount_any h) hd
        (validAmount_ne_inf h),
      decValOf_reprFloat h hd hni]

/-! Facts about the table pipeline. -/

lemma cleanTable_eq_aux (t : RawTable) : cleanTable t = cleanTableAux (effTable t) := rfl

lemma getD_mem {α : Type} : ∀ (l : List α) (i : Nat) (d : α),
    l.getD i d = d ∨ l.getD i d ∈ l := by
  intro l
  induction l with
  | nil => intro i d; left; rfl
  | cons a rest ih =>
    intro i d
    cases i with
    | zero => right; exact List.mem_cons_self _ _
    | succ j =>
      rcases ih j d with h | h
      · left; exact h
      · right; exact List.mem_cons_of_mem _ h

lemma cellAt_some {hdr : List String} {name : String} {row : List (Option String)}
    {p : String} (h : cellAt hdr name row = some p) : some p ∈ row := by
  unfold cellAt at h
  rcases getD_mem row (colIdx hdr name) none with hd | hd
  · rw [h] at hd; exact absurd hd (by simp)
  · rw [h] at hd; exact hd

lemma chain_eq_filterMap {α β γ : Type} (f : α → β) (v k : β → Bool) (g : β → γ)
    (e : α → Option γ)
    (h : ∀ a, e a = if v (f a) && k (f a) then some (g (f a)) else none) :
    ∀ l : List α, (((l.map f).filter v).filter k).map g = l.filterMap e := by
  intro l
  induction l with
  | nil => rfl
  | cons a l ih =>
    cases hv : v (f a) with
    | false =>
      rw [List.map_cons, List.filter_cons, if_neg (by simp [hv]),
        List.filterMap_cons, h a, hv]
      simpa using ih
    | true =>
      rw [List.map_cons, List.filter_cons, if_pos (by simp [hv]), List.filter_cons]
      cases hk : k (f a) with
      | false =>
        rw [if_neg (by simp [hk]), List.filterMap_cons, h a, hv, hk]
        simpa using ih
      | true =>
        rw [if_pos (by simp [hk]), List.map_cons, List.filterMap_cons, h a, hv, hk]
        simpa using ih

lemma cleanTableAux_ok {t : RawTable} {recs : List CleanRec}
    (h : cleanTableAux t = Except.ok recs) :
    ∀ r ∈ recs, validAmount r.amount = true ∧ (pyFloat r.amount).isSome = true ∧
      ∃ row ∈ t.rows, cellAt t.header "Period" row = some r.period ∧
        r.amount = sanitize (astypeStr (cellAt t.header "Amount" row)) := by
  unfold cleanTableAux at h
  split at h
  · split at h
    · rename_i hall
      intro r hr
      have hrecs := Except.ok.inj h
      rw [← hrecs] at hr
      obtain ⟨pr, hpr, rfl⟩ := List.mem_map.mp hr
      unfold keptOf at hpr
      obtain ⟨hprv, hk⟩ := List.mem_filter.mp hpr
      have hsome := List.all_eq_true.mp hall _ hprv
      unfold validOf at hprv
      obtain ⟨hprs, hv⟩ := List.mem_filter.mp hprv
      unfold sanitizedOf at hprs
      obtain ⟨q, hq, rfl⟩ := List.mem_map.mp hprs
      unfold selectedOf at hq
      obtain ⟨row, hrow, rfl⟩ := List.mem_map.mp hq
      obtain ⟨p, hp⟩ := Option.isSome_iff_exists.mp hk
      refine ⟨hv, hsome, row, hrow, ?_, rfl⟩
      have hp2 : cellAt t.header "Period" row = some p := hp
      rw [hp2]
      rfl
    · exact absurd h (by simp)
  · exact absurd h (by simp)

lemma loadTable_ok_cells {input : Option (List String)} {t : RawTable}
    (h : loadTable input = Except.ok t) :
    ∀ row ∈ t.rows, ∀ c ∈ row, c ≠ some "" := by
  cases input with
  | none => exact absurd h (by simp [loadTable])
  | some lines =>
    have h2 : (match lines.filter (fun l => l != "") with
        | [] => (Except.error Diag.emptyData : Except Diag RawTable)
        | hd :: rest =>
          Except.ok ⟨splitTab hd, rest.map (fun r => (splitTab r).map parseCell)⟩)
        = Except.ok t := h
    cases hf : lines.filter (fun l => l != "") with
    | nil => rw [hf] at h2; exact absurd h2 (by simp)
    | cons hd rest =>
      rw [hf] at h2
      have ht := Except.ok.inj h2
      intro row hrow c hc
      rw [← ht] at hrow
      obtain ⟨line, hline, rfl⟩ := List.mem_map.mp hrow
      obtain ⟨cell, hcell, rfl⟩ := List.mem_map.mp hc
      unfold parseCell
      split
      · simp
      · rename_i hna
        intro heq
        have : cell = "" := Option.some.inj heq
        rw [this] at hna
        exact hna (by decide)

lemma effTable_cells {t : RawTable}
    (h : ∀ row ∈ t.rows, ∀ c ∈ row, c ≠ some "") :
    ∀ row ∈ (effTable t).rows, ∀ c ∈ row, c ≠ some "" := by
  unfold effTable
  split
  · intro row hrow c hc
    obtain ⟨row0, hrow0, rfl⟩ := List.mem_map.mp hrow
    exact h row0 hrow0 c (List.take_subset _ _ hc)
  · exact h

lemma cleanRecords_ok {input : Option (List String)} {recs : List CleanRec}
    (h : cleanRecords input = Except.ok recs) :
    ∀ r ∈ recs, r.period ≠ "" ∧ validAmount r.amount = true ∧
      (pyFloat r.amount).isSome = true := by
  unfold cleanRecords at h
  cases hl : loadTable input with
  | error d => rw [hl] at h; exact absurd h (by simp)
  | ok t =>
    rw [hl] at h
    have h2 : cleanTableAux (effTable t) = Except.ok recs := h
    intro r hr
    obtain ⟨hv, hs, row, hrow, hP, _⟩ := cleanTableAux_ok h2 r hr
    have hcell := effTable_cells (loadTable_ok_cells hl) row hrow _ (cellAt_some hP)
    refine ⟨?_, hv, hs⟩
    intro hper
    exact hcell (by rw [hper])

/-! Facts about loading, the run wrapper, and serialisation. -/

lemma mk_data (s : String) : String.mk s.data = s := rfl

lemma cleanTableAux_err {t : RawTable} {d : Diag}
    (h : cleanTableAux t = Except.error d) :
    d = Diag.schemaErr ∨ d = Diag.parseFail := by
  unfold cleanTableAux at h
  split at h
  · split at h
    · exact absurd h (by simp)
    · right; exact (Except.error.inj h).symm
  · left; exact (Except.error.inj h).symm

lemma loadTable_some_nil {lines : List String}
    (hf : lines.filter (fun l => l != "") = []) :
    loadTable (some lines) = Except.error Diag.emptyData := by
  have h2 : loadTable (some lines) = (match lines.filter (fun l => l != "") with
      | [] => (Except.error Diag.emptyData : Except Diag RawTable)
      | hd :: rest =>
        Except.ok ⟨splitTab hd, rest.map (fun r => (splitTab r).map parseCell)⟩) := rfl
  rw [h2, hf]

lemma loadTable_some_cons {lines : List String} {hd0 : String} {rest : List String}
    (hf : lines.filter (fun l => l != "") = hd0 :: rest) :
    loadTable (some lines)
      = Except.ok ⟨splitTab hd0, rest.map (fun r => (splitTab r).map parseCell)⟩ := by
  have h2 : loadTable (some lines) = (match lines.filter (fun l => l != "") with
      | [] => (Except.error Diag.emptyData : Except Diag RawTable)
      | hd :: rest =>
        Except.ok ⟨splitTab hd, rest.map (fun r => (splitTab r).map parseCell)⟩) := rfl
  rw [h2, hf]

lemma cleanRecords_eq (input : Option (List String)) :
    cleanRecords input = (match loadTable input with
      | Except.ok t => cleanTable t
      | Except.error d => Except.error d) := rfl

lemma clean_output_ok {input : Option (List String)} {recs : List CleanRec}
    (h : cleanRecords input = Except.ok recs) :
    clean_earnings_data input = ⟨some (serialize recs), none⟩ := by
  unfold clean_earnings_data
  rw [h]

lemma clean_output_err {input : Option (List String)} {d : Diag}
    (h : cleanRecords input = Except.error d) :
    clean_earnings_data input = ⟨none, some d⟩ := by
  unfold clean_earnings_data
  rw [h]

lemma decVal_toRat_nonneg (v : DecVal) : 0 ≤ v.toRat := by
  unfold DecVal.toRat
  positivity

lemma pyFloat_nonneg {s : String} {v : PyVal} (h : pyFloat s = some v) : v.nonneg := by
  unfold pyFloat at h
  split at h
  · cases Option.some.inj h
    exact trivial
  · split at h
    · cases Option.some.inj h
      split
      · exact trivial
      · exact decVal_toRat_nonneg _
    · exact absurd h (by simp)

lemma noSpecial_no_comma {s : String} (h : noSpecial s = true) :
    s.data.all (fun c => c != ',') = true := by
  refine all_weaken h ?_
  intro c hc
  rcases Bool.eq_false_or_eq_true (c == ',') with h1 | h1
  · rw [h1] at hc
    simp at hc
  · simp [bne, h1]

lemma reprFloat_no_comma {s : String} (hval : validAmount s = true)
    (hd : dotCount s ≤ 1) : (reprFloat s).data.all (fun c => c != ',') = true := by
  by_cases hni : pyFloat s = some PyVal.inf
  · have hr : reprFloat s = "inf" := by unfold reprFloat; rw [if_pos hni]
    rw [hr]
    decide
  · refine all_weaken (reprFloat_all_digit_dot hval hd hni) ?_
    intro c hc
    rcases Bool.eq_false_or_eq_true (c == ',') with h1 | h1
    · rw [show c = ',' from beq_iff_eq.mp h1] at hc
      exact absurd hc (by decide)
    · simp [bne, h1]

lemma recLine_eq {r : CleanRec} (hns : noSpecial r.period = true) :
    (recLine r).data = r.period.data ++ ',' :: (reprFloat r.amount).data := by
  unfold recLine
  have hq : needsQuote r.period = false := by
    rw [Bool.eq_false_iff]
    intro hc
    rw [needsQuote, List.any_eq_true] at hc
    obtain ⟨c, hcm, hcc⟩ := hc
    have hall := List.all_eq_true.mp hns c hcm
    rw [hcc] at hall
    simp at hall
  unfold csvField
  rw [if_neg (by simp [hq]), String.data_append, String.data_append,
    List.append_assoc]
  rfl

/-! Claim theorems. -/

/-- C1, counterexample: the claim's regex-based description of the kept rows
fails on the code.  The sanitised Amount ".5" does not match
`^\d+(\.\d+)?$`, yet its row is written (as 0.5); and "1.2.3", which the
claim says is dropped, instead passes the digit check, makes the float
conversion of the column raise, and aborts the run, so the row "B" matching
the regex is not written at all. -/
theorem c1_counterexample :
    cleanTable ⟨["Period", "Amount"], [[some "Q1", some "$.5"]]⟩
      = Except.ok [⟨"Q1", ".5"⟩] ∧
    specNumeric ".5" = false ∧
    cleanTable ⟨["Period", "Amount"],
        [[some "A", some "$1.2.3"], [some "B", some "$1,000.50"]]⟩
      = Except.error Diag.parseFail ∧
    validAmount "1.2.3" = true ∧
    specNumeric "1000.50" = true :=
  ⟨by decide, by decide, by decide, by decide, by decide⟩

/-- C1, amended: for every table whose (post-truncation) columns include
Period and Amount, provided every digit-check-passing Amount has at most one
decimal point, the output consists of exactly the rows whose sanitised
Amount becomes a non-empty digit string once every dot is deleted (so ".5",
"1." and the like are also kept) and whose Period cell is present; a
check-passing Amount with two or more dots instead aborts the whole run with
no output. -/
theorem c1_rows_kept (t : RawTable)
    (hsch : ((effTable t).header.contains "Period" &&
      (effTable t).header.contains "Amount") = true)
    (hdots : ∀ r ∈ (effTable t).rows,
      validAmount (amountOf (effTable t) r) = true →
        dotCount (amountOf (effTable t) r) ≤ 1) :
    cleanTable t
      = Except.ok ((effTable t).rows.filterMap (expectedRec (effTable t))) := by
  rw [cleanTable_eq_aux]
  unfold cleanTableAux
  rw [if_pos hsch]
  have hall : ((validOf (effTable t)).all fun pr => (pyFloat pr.2).isSome) = true := by
    rw [List.all_eq_true]
    intro pr hpr
    unfold validOf at hpr
    obtain ⟨hprs, hv⟩ := List.mem_filter.mp hpr
    unfold sanitizedOf at hprs
    obtain ⟨q, hq, rfl⟩ := List.mem_map.mp hprs
    unfold selectedOf at hq
    obtain ⟨row, hrow, rfl⟩ := List.mem_map.mp hq
    exact pyFloat_isSome_of_valid hv (hdots row hrow hv)
  rw [if_pos hall]
  congr 1
  unfold keptOf validOf sanitizedOf selectedOf
  rw [List.map_map]
  refine chain_eq_filterMap _ _ _ _ _ ?_ _
  intro row
  unfold expectedRec amountOf
  cases hp : cellAt (effTable t).header "Period" row with
  | none => simp [Function.comp, hp]
  | some p =>
    cases hv : validAmount (sanitize (astypeStr (cellAt (effTable t).header "Amount" row))) with
    | false => simp [Function.comp, hp, hv]
    | true => simp [Function.comp, hp, hv]

/-- C1, witness: a three-row table with a currency-formatted amount, a
non-numeric amount and a missing Period, on which exactly the first row is
kept. -/
theorem c1_rows_kept_witness :
    ((effTable ⟨["Period", "Amount"],
        [[some "Q1", some "$1,000.50"], [some "Q2", some "N/A"],
         [none, some "3"]]⟩).header.contains "Period" &&
      (effTable ⟨["Period", "Amount"],
        [[some "Q1", some "$1,000.50"], [some "Q2", some "N/A"],
         [none, some "3"]]⟩).header.contains "Amount") = true ∧
    cleanTable ⟨["Period", "Amount"],
        [[some "Q1", some "$1,000.50"], [some "Q2", some "N/A"],
         [none, some "3"]]⟩ = Except.ok [⟨"Q1", "1000.50"⟩] := by
  refine ⟨by decide, ?_⟩
  rw [c1_rows_kept ⟨["Period", "Amount"],
    [[some "Q1", some "$1,000.50"], [some "Q2", some "N/A"], [none, some "3"]]⟩
    (by decide) (by decide)]
  decide

/-- C2: the run is a total function whose only outcomes are a written output
with no diagnostic, or a diagnostic with no written output; in particular
whenever any failure is reported nothing is written. -/
theorem c2_errors_swallowed (input : Option (List String)) :
    ((clean_earnings_data input).output.isSome = true ↔
      (clean_earnings_data input).diag = none) ∧
    (∀ d, (clean_earnings_data input).diag = some d →
      (clean_earnings_data input).output = none) := by
  cases h : cleanRecords input with
  | ok recs => rw [clean_output_ok h]; simp
  | error d => rw [clean_output_err h]; simp

/-- C2, witness: on a missing input file a diagnostic is produced and no
output is written. -/
theorem c2_errors_swallowed_witness : (clean_earnings_data none).output = none :=
  (c2_errors_swallowed none).2 Diag.notFound (by decide)

/-- C3, counterexample: "1.2.3" passes the digit-based validation (deleting
every dot leaves "123") but its float conversion fails, so the defensive
parse-failure branch is reachable. -/
theorem c3_counterexample :
    validAmount "1.2.3" = true ∧ pyFloat "1.2.3" = none :=
  ⟨by decide, by decide⟩

/-- C3, amended: the float conversion succeeds for every validated Amount
string with at most one decimal point; only validated strings with two or
more dots (which the spec's reading of the check would have rejected) can
reach the defensive branch. -/
theorem c3_parse_after_validation (s : String) (h : validAmount s = true)
    (hd : dotCount s ≤ 1) : (pyFloat s).isSome = true :=
  pyFloat_isSome_of_valid h hd

/-- C3, witness: the validated single-dot string "1.5" converts. -/
theorem c3_parse_after_validation_witness :
    validAmount "1.5" = true ∧ dotCount "1.5" ≤ 1 ∧ (pyFloat "1.5").isSome = true :=
  ⟨by decide, by decide, c3_parse_after_validation "1.5" (by decide) (by decide)⟩

/-- C4, counterexample: on the spec's example input the record line written
is "Q1,1000.5" — the float 1000.5 prints without the trailing zero — not the
claimed "Q1,1000.50". -/
theorem c4_counterexample :
    (clean_earnings_data
        (some ["Period\tAmount\tExtra", "Q1\t$1,000.50\tfoo", "Q2\tN/A\tbar"])).output
      = some ["Period,Amount", "Q1,1000.5"] ∧
    some ["Period,Amount", "Q1,1000.5"] ≠ some ["Period,Amount", "Q1,1000.50"] :=
  ⟨by decide, by decide⟩

/-- C4, amended: on that input the output is the header "Period,Amount"
followed by the single record line "Q1,1000.5", the Q2 row being dropped as
non-numeric. -/
theorem c4_example_output :
    (clean_earnings_data
        (some ["Period\tAmount\tExtra", "Q1\t$1,000.50\tfoo", "Q2\tN/A\tbar"])).output
      = some ["Period,Amount", "Q1,1000.5"] := by decide

/-- C5: with more than 3 parsed columns only the first 3 are processed —
the run result equals the run on the truncated table — and when Period and
Amount are not both among those first 3 the run stops with a schema error
and, for any input file parsing to that table, writes nothing. -/
theorem c5_truncation (t : RawTable) (h3 : 3 < t.header.length) :
    cleanTable t = cleanTable (truncTable t) ∧
    (((t.header.take 3).contains "Period" &&
        (t.header.take 3).contains "Amount") = false →
      cleanTable t = Except.error Diag.schemaErr ∧
      ∀ input, loadTable input = Except.ok t →
        (clean_earnings_data input).output = none) := by
  have he : effTable t = truncTable t := by unfold effTable; rw [if_pos h3]
  have hlen : (truncTable t).header.length ≤ 3 := by
    show (t.header.take 3).length ≤ 3
    rw [List.length_take]
    omega
  have he2 : effTable (truncTable t) = truncTable t := by
    unfold effTable
    rw [if_neg (by omega)]
  constructor
  · rw [cleanTable_eq_aux, cleanTable_eq_aux, he, he2]
  · intro hmiss
    have herr : cleanTable t = Except.error Diag.schemaErr := by
      rw [cleanTable_eq_aux, he]
      unfold cleanTableAux
      rw [if_neg]
      show ¬(((t.header.take 3).contains "Period" &&
        (t.header.take 3).contains "Amount") = true)
      rw [hmiss]
      exact Bool.false_ne_true
    refine ⟨herr, ?_⟩
    intro input hin
    have hcr : cleanRecords input = Except.error Diag.schemaErr := by
      rw [cleanRecords_eq, hin]
      exact herr
    rw [clean_output_err hcr]

/-- C5, witness: a 4-column header whose first 3 columns lack Period ends in
a schema error and no output. -/
theorem c5_truncation_witness :
    3 < (["A", "B", "C", "Period"] : List String).length ∧
    cleanTable ⟨["A", "B", "C", "Period"], []⟩ = Except.error Diag.schemaErr ∧
    (clean_earnings_data (some ["A\tB\tC\tPeriod"])).output = none := by
  refine ⟨by decide, ?_, ?_⟩
  · exact ((c5_truncation ⟨["A", "B", "C", "Period"], []⟩ (by decide)).2 (by decide)).1
  · exact ((c5_truncation ⟨["A", "B", "C", "Period"], []⟩ (by decide)).2 (by decide)).2
      (some ["A\tB\tC\tPeriod"]) (by decide)

set_option maxRecDepth 100000 in
/-- C6, counterexample: an Amount of one followed by 309 zeros (kept as a
string at load time thanks to its `$`) passes validation, overflows the
float conversion to infinity, and is written as "inf" — the written record's
Amount is not finite. -/
theorem c6_counterexample :
    cleanRecords (some ["Period\tAmount",
        "Q1\t$1" ++ String.mk (List.replicate 309 '0')])
      = Except.ok [⟨"Q1", String.mk ('1' :: List.replicate 309 '0')⟩] ∧
    pyFloat (String.mk ('1' :: List.replicate 309 '0')) = some PyVal.inf ∧
    PyVal.inf.isFinite = false ∧
    (clean_earnings_data (some ["Period\tAmount",
        "Q1\t$1" ++ String.mk (List.replicate 309 '0')])).output
      = some ["Period,Amount", "Q1,inf"] :=
  ⟨by decide, by decide, by decide, by decide⟩

/-- C6, amended: every written record has a non-empty Period and an Amount
that converted successfully to a non-negative value (finiteness can fail:
amounts at or beyond the binary64 range convert to infinity). -/
theorem c6_record_invariant (input : Option (List String)) (recs : List CleanRec)
    (h : cleanRecords input = Except.ok recs) :
    ∀ r ∈ recs, r.period ≠ "" ∧
      ∃ v, pyFloat r.amount = some v ∧ v.nonneg := by
  intro r hr
  obtain ⟨hper, _, hs⟩ := cleanRecords_ok h r hr
  obtain ⟨v, hpv⟩ := Option.isSome_iff_exists.mp hs
  exact ⟨hper, v, hpv, pyFloat_nonneg hpv⟩

/-- C6, witness: the invariant on a one-record run. -/
theorem c6_record_invariant_witness :
    cleanRecords (some ["Period\tAmount", "Q1\t$1,000.50"])
      = Except.ok [⟨"Q1", "1000.50"⟩] ∧
    ∀ r ∈ ([⟨"Q1", "1000.50"⟩] : List CleanRec), r.period ≠ "" ∧
      ∃ v, pyFloat r.amount = some v ∧ v.nonneg :=
  ⟨by decide, c6_record_invariant (some ["Period\tAmount", "Q1\t$1,000.50"])
    [⟨"Q1", "1000.50"⟩] (by decide)⟩

/-- C7, counterexample: a Period containing a comma is quoted by the CSV
writer, and the naive comma-split of the written line yields three fields,
none equal to the original Period, so the round trip fails. -/
theorem c7_counterexample :
    cleanRecords (some ["Period\tAmount", "a,b\t$5"])
      = Except.ok [⟨"a,b", "5"⟩] ∧
    (clean_earnings_data (some ["Period\tAmount", "a,b\t$5"])).output
      = some ["Period,Amount", "\"a,b\",5.0"] ∧
    naiveRead ["Period,Amount", "\"a,b\",5.0"] = [["\"a", "b\"", "5.0"]] ∧
    [["\"a", "b\"", "5.0"]] ≠ [["a,b", "5.0"]] :=
  ⟨by decide, by decide, by decide, by decide⟩

/-- C7, amended: whenever the cleaner writes an output and no Period field
contains a comma, double quote or line break, naively comma-splitting the
written lines after the header recovers exactly the (Period, Amount) pairs,
and each recovered Amount string converts to the same float value as the
written record's Amount. -/
theorem c7_roundtrip (input : Option (List String)) (recs : List CleanRec)
    (h : cleanRecords input = Except.ok recs)
    (hns : ∀ r ∈ recs, noSpecial r.period = true) :
    (clean_earnings_data input).output = some (serialize recs) ∧
    naiveRead (serialize recs)
      = recs.map (fun r => [r.period, reprFloat r.amount]) ∧
    ∀ r ∈ recs, pyFloat (reprFloat r.amount) = pyFloat r.amount := by
  refine ⟨by rw [clean_output_ok h], ?_, ?_⟩
  · unfold naiveRead serialize
    simp only [List.drop_succ_cons, List.drop_zero]
    rw [List.map_map]
    refine List.map_congr_left ?_
    intro r hr
    obtain ⟨hper, hval, hsome⟩ := cleanRecords_ok h r hr
    have hdle := dotCount_le_of_pyFloat hval hsome
    show (splitCommas (recLine r).data).map String.mk = _
    rw [recLine_eq (hns r hr)]
    unfold splitCommas
    rw [splitOnChar_append _ _ _ (noSpecial_no_comma (hns r hr)),
      splitOnChar_single _ _ (reprFloat_no_comma hval hdle)]
    simp [mk_data]
  · intro r hr
    obtain ⟨_, hval, hsome⟩ := cleanRecords_ok h r hr
    exact pyFloat_reprFloat hval (dotCount_le_of_pyFloat hval hsome)

/-- C7, witness: the round trip on a one-record output with a plain
Period. -/
theorem c7_roundtrip_witness :
    cleanRecords (some ["Period\tAmount", "Q1\t$2.5"])
      = Except.ok [⟨"Q1", "2.5"⟩] ∧
    ((clean_earnings_data (some ["Period\tAmount", "Q1\t$2.5"])).output
        = some (serialize [⟨"Q1", "2.5"⟩]) ∧
      naiveRead (serialize [⟨"Q1", "2.5"⟩])
        = ([⟨"Q1", "2.5"⟩] : List CleanRec).map
            (fun r => [r.period, reprFloat r.amount]) ∧
      ∀ r ∈ ([⟨"Q1", "2.5"⟩] : List CleanRec),
        pyFloat (reprFloat r.amount) = pyFloat r.amount) :=
  ⟨by decide, c7_roundtrip (some ["Period\tAmount", "Q1\t$2.5"])
    [⟨"Q1", "2.5"⟩] (by decide) (by decide)⟩

/-- C8: a second run on the same input leaves the output path byte-for-byte
as the first run left it — a successful run rewrites the same content, a
failed run writes nothing either time. -/
theorem c8_idempotent (input : Option (List String)) (prior : Option (List String)) :
    runWithOutputState input (runWithOutputState input prior)
      = runWithOutputState input prior := by
  unfold runWithOutputState
  cases (clean_earnings_data input).output with
  | none => rfl
  | some o => rfl

/-- C9: the not-found diagnostic appears exactly when the input file is
missing, the empty-input diagnostic exactly when it has no non-blank
content, and any diagnostic means nothing was written. -/
theorem c9_load_errors (input : Option (List String)) :
    ((clean_earnings_data input).diag = some Diag.notFound ↔ input = none) ∧
    ((clean_earnings_data input).diag = some Diag.emptyData ↔
      ∃ ls, input = some ls ∧ ls.filter (fun l => l != "") = []) ∧
    ((clean_earnings_data input).diag.isSome = true →
      (clean_earnings_data input).output = none) := by
  cases input with
  | none =>
    refine ⟨by simp [clean_earnings_data, cleanRecords, loadTable], ?_, ?_⟩
    · constructor
      · intro hc
        exact absurd hc (by decide)
      · rintro ⟨ls, hls, _⟩
        cases hls
    · intro _
      decide
  | some lines =>
    cases hf : lines.filter (fun l => l != "") with
    | nil =>
      have hrun : clean_earnings_data (some lines) = ⟨none, some Diag.emptyData⟩ :=
        clean_output_err (by rw [cleanRecords_eq, loadTable_some_nil hf])
      rw [hrun]
      refine ⟨by simp, ?_, fun _ => rfl⟩
      constructor
      · intro _
        exact ⟨lines, rfl, hf⟩
      · intro _
        rfl
    | cons hd0 rest =>
      have hload := loadTable_some_cons hf
      cases hct : cleanTable ⟨splitTab hd0, rest.map (fun r => (splitTab r).map parseCell)⟩ with
      | ok recs =>
        have hrun : clean_earnings_data (some lines) = ⟨some (serialize recs), none⟩ :=
          clean_output_ok (by rw [cleanRecords_eq, hload]; exact hct)
        rw [hrun]
        refine ⟨by simp, ?_, by simp⟩
        constructor
        · intro hc
          exact absurd hc (by simp)
        · rintro ⟨ls, hls, hfl⟩
          cases Option.some.inj hls
          rw [hfl] at hf
          cases hf
      | error d =>
        have hd2 := cleanTableAux_err (t := effTable ⟨splitTab hd0,
          rest.map (fun r => (splitTab r).map parseCell)⟩) hct
        have hrun : clean_earnings_data (some lines) = ⟨none, some d⟩ :=
          clean_output_err (by rw [cleanRecords_eq, hload]; exact hct)
        rw [hrun]
        refine ⟨?_, ?_, fun _ => rfl⟩
        · constructor
          · intro hc
            rcases hd2 with h | h <;>
              (rw [h] at hc; exact absurd (Option.some.inj hc) (by decide))
          · intro hc
            cases hc
        · constructor
          · intro hc
            rcases hd2 with h | h <;>
              (rw [h] at hc; exact absurd (Option.some.inj hc) (by decide))
          · rintro ⟨ls, hls, hfl⟩
            cases Option.some.inj hls
            rw [hfl] at hf
            cases hf

/-- C9, witness: a missing input file yields exactly the not-found
diagnostic. -/
theorem c9_load_errors_witness :
    (clean_earnings_data none).diag = some Diag.notFound :=
  ((c9_load_errors none).1).mpr rfl

/-- C10: `$` and `,` are deleted wherever they occur in the Amount string,
so the malformed "1$2,3" is cleaned to "123", validates, and is written as
123.0. -/
theorem c10_strip_everywhere :
    sanitize "1$2,3" = "123" ∧ validAmount "123" = true ∧
    (clean_earnings_data (some ["Period\tAmount", "Q1\t1$2,3"])).output
      = some ["Period,Amount", "Q1,123.0"] :=
  ⟨by decide, by decide, by decide⟩

end DataCleaning
